import Mathlib

/-!
Verification development for the semantic-search plugin.

The definitions below are a shallow embedding of the plugin's core code:

* the text preprocessing pipeline (`preprocessText` in
  `server/src/services/embedding-service.js`),
* embedding generation and batching (`generateEmbedding`,
  `generateBatchEmbeddings` in the same file),
* cosine similarity and vector search (`calculateCosineSimilarity`,
  `searchSimilar` in `vector-service.js`),
* search orchestration (`semanticSearch`, `multiContentTypeSearch` in
  `search-service.js`),
* the auto-indexing lifecycle hook (`processDocumentEmbedding`,
  `extractTextContent`).

Modelling conventions:

* JavaScript strings of document text are modelled as `List Char`;
  identifiers (content-type names, field names) as `String`.
* JavaScript numbers are modelled as exact rationals `ℚ`; `Math.sqrt`
  results are kept symbolic in the score type `SimScore` (a cosine score
  `dot / (sqrt sA * sqrt sB)` is stored as the pair of its numerator and
  the product `sA * sB` under the root), with a real-valued denotation
  `SimScore.val` and a computable comparator `SimScore.le` proved to agree
  with the denotation.  Floating-point rounding is idealised away; all the
  properties proved here are about branch structure and ordering, which do
  not depend on rounding.
* External effects (the OpenAI provider, the Strapi document store) are
  modelled as explicit function parameters returning `Except`;
  a thrown JavaScript exception is an `Except.error` value.
* `null`/`undefined` inputs are modelled with `Option`; the JavaScript
  truthiness of a string is `≠ ""`, of an array it is always `true`
  (note `![]` is `false` in JavaScript), of `null`/`undefined` it is
  `false`.
-/

/-! ## Text normalization (`preprocessText`) -/

/-- The whitespace class used by the model for the regex `\s` and for
`String.prototype.trim`.  This is the ASCII part of the JavaScript class;
the additional Unicode space code points behave identically for every
property proved here, since the normalization algorithm only depends on
the class membership test. -/
def isWs (c : Char) : Bool :=
  c == ' ' || c == '\t' || c == '\n' || c == '\r' || c == '\x0b' || c == '\x0c'

/-- `text.replace(/<[^>]*>/g, ' ')`: every maximal segment starting at a
`<` and running to the next `>` is replaced by a single space; a `<` with
no later `>` in the remainder matches nothing and is kept literally
(and then nothing after it can match either, since no `>` remains). -/
def stripTags : List Char → List Char
  | [] => []
  | c :: rest =>
    if c = '<' then
      match rest.findIdx? (fun x => x == '>') with
      | some i => ' ' :: stripTags (rest.drop (i + 1))
      | none => c :: rest
    else c :: stripTags rest
termination_by l => l.length
decreasing_by
  · simp only [List.length_drop, List.length_cons]; omega
  · simp

/-- `text.replace(/\s+/g, ' ')`: each maximal whitespace run collapses to
one space. -/
def collapseWs : List Char → List Char
  | [] => []
  | c :: rest =>
    if isWs c then ' ' :: collapseWs (rest.dropWhile isWs)
    else c :: collapseWs rest
termination_by l => l.length
decreasing_by
  · have := (List.dropWhile_sublist (l := rest) isWs).length_le
    simp only [List.length_cons]
    omega
  · simp

/-- Drop leading whitespace. -/
def trimLeftWs (l : List Char) : List Char := l.dropWhile isWs

/-- Drop trailing whitespace. -/
def trimRightWs (l : List Char) : List Char := (l.reverse.dropWhile isWs).reverse

/-- `String.prototype.trim`. -/
def trimWs (l : List Char) : List Char := trimRightWs (trimLeftWs l)

/-- The normalization part of `preprocessText`: strip markup, collapse
whitespace runs, trim. -/
def normalizeText (t : List Char) : List Char := trimWs (collapseWs (stripTags t))

/-- `preprocessText(text)` from `embedding-service.js`:
`if (!text) return ''`, then strip tags, collapse whitespace, trim, and
truncate to 8000 characters with an appended `'...'` marker. -/
def preprocessText (text : Option (List Char)) : List Char :=
  match text with
  | none => []
  | some t =>
    if t = [] then []
    else
      let normalizedText := normalizeText t
      if normalizedText.length > 8000 then normalizedText.take 8000 ++ ['.', '.', '.']
      else normalizedText

/-! ## Embedding client (`generateEmbedding`, `generateBatchEmbeddings`) -/

/-- Failure classes reported by the external embedding provider.  The
`other` class carries the provider's own message (the catch-all case). -/
inductive ProviderError where
  | insufficientQuota
  | invalidApiKey
  | rateLimitExceeded
  | other (msg : String)
deriving DecidableEq

/-- The external provider boundary: one call with the processed text,
returning the embedding vector or a classified failure.  (The remote
OpenAI call is out of scope; the client code treats it as exactly this
contract.) -/
def Provider : Type := List Char → Except ProviderError (List ℚ)

/-- Errors thrown by the embedding service, one constructor per distinct
`throw` site / error-code remapping in `generateEmbedding`. -/
inductive EmbError where
  | notInitialized
  | textRequired
  | textsRequired
  | textTooShort
  | quotaExceeded
  | invalidCredentials
  | rateLimited
  | providerOther (msg : String)
deriving DecidableEq

/-- The message of each thrown `Error`, as in the JavaScript source. -/
def EmbError.message : EmbError → String
  | .notInitialized => "OpenAI client not initialized. Check your API key."
  | .textRequired => "Text is required for embedding generation"
  | .textsRequired => "Texts array is required for batch embedding generation"
  | .textTooShort => "Text too short for meaningful embedding"
  | .quotaExceeded => "OpenAI API quota exceeded"
  | .invalidCredentials => "Invalid OpenAI API key"
  | .rateLimited => "OpenAI API rate limit exceeded"
  | .providerOther m => m

/-- The `catch` block of `generateEmbedding`: provider error codes are
remapped to the service's own errors; anything else is rethrown as-is. -/
def mapProviderError : ProviderError → EmbError
  | .insufficientQuota => .quotaExceeded
  | .invalidApiKey => .invalidCredentials
  | .rateLimitExceeded => .rateLimited
  | .other m => .providerOther m

/-- The successful result shape of `generateEmbedding`. -/
structure EmbedResult where
  embedding : List ℚ
  processedText : List Char
  originalLength : ℕ
  processedLength : ℕ
deriving DecidableEq

/-- `generateEmbedding(text)` from `embedding-service.js`.  `init` models
whether `this.openai` was initialized; `prov` is the provider call.
Note the `Text too short` throw happens inside the `try` block, but the
`catch` rethrows it unchanged (an `Error` has no matching `code`), so its
net effect is exactly an error return. -/
def generateEmbedding (init : Bool) (prov : Provider) (text : Option (List Char)) :
    Except EmbError EmbedResult :=
  if init = false then .error .notInitialized
  else
    match text with
    | none => .error .textRequired
    | some t =>
      if t = [] ∨ (trimWs t).length = 0 then .error .textRequired
      else
        let processedText := preprocessText (some t)
        if processedText.length < 10 then .error .textTooShort
        else
          match prov processedText with
          | .ok embedding => .ok ⟨embedding, processedText, t.length, processedText.length⟩
          | .error pe => .error (mapProviderError pe)

/-- The chunked loop of `generateBatchEmbeddings`: groups of 10 are
processed sequentially; within a group the items run under `Promise.all`,
which resolves to the results in input order.  The 1-second inter-group
delay has no observable effect in this model.  In the failure case
`Promise.all` rejects with one failing item's error; for the deterministic
model we take the first failing item in array order (the claims proved
below only concern the all-success case, where no choice arises). -/
def batchLoop (f : α → Except ε β) : List α → Except ε (List β)
  | [] => .ok []
  | a :: tl => do
    let batchResults ← ((a :: tl).take 10).mapM f
    let rest ← batchLoop f ((a :: tl).drop 10)
    return batchResults ++ rest
termination_by l => l.length
decreasing_by
  simp only [List.length_drop, List.length_cons]
  omega

/-- `generateBatchEmbeddings(texts)` from `embedding-service.js`. -/
def generateBatchEmbeddings (init : Bool) (prov : Provider)
    (texts : List (Option (List Char))) : Except EmbError (List EmbedResult) :=
  if texts.length = 0 then .error .textsRequired
  else batchLoop (generateEmbedding init prov) texts

/-! ## Similarity scores (`calculateCosineSimilarity`) -/

/-- The value of a cosine-similarity computation.  JavaScript computes the
float `dot / (Math.sqrt(sA) * Math.sqrt(sB))`; the model keeps the value
exact.  `exact q` is a value that is exactly the rational `q` (the defined
zero-magnitude case); `ratio d p hp` denotes `d / Real.sqrt p` where
`p = sA * sB > 0` is the product of the two squared magnitudes (note
`sqrt sA * sqrt sB = sqrt (sA * sB)` for nonnegative `sA`, `sB`). -/
inductive SimScore where
  | exact (q : ℚ)
  | ratio (d p : ℚ) (hp : 0 < p)

/-- The real number denoted by a `SimScore`. -/
noncomputable def SimScore.val : SimScore → ℝ
  | .exact q => (q : ℝ)
  | .ratio d p _ => (d : ℝ) / Real.sqrt (p : ℝ)

/-- Numerator/radicand presentation of a score: `exact q` is `q / sqrt 1`. -/
def SimScore.rep : SimScore → ℚ × ℚ
  | .exact q => (q, 1)
  | .ratio d p _ => (d, p)

/-- Computable comparison of two score values `d / sqrt p ≤ e / sqrt r`
(with `p, r > 0`), by sign analysis and cross-multiplied squares.  This is
the order JavaScript's float comparisons realise on score values;
`SimScore.le_iff_val` below proves it agrees with the real denotation. -/
def SimScore.le (x y : SimScore) : Bool :=
  let d := x.rep.1
  let p := x.rep.2
  let e := y.rep.1
  let r := y.rep.2
  if d ≤ 0 then
    if 0 ≤ e then true
    else decide (e * e * p ≤ d * d * r)
  else
    if e ≤ 0 then false
    else decide (d * d * r ≤ e * e * p)

theorem SimScore.rep_pos (x : SimScore) : 0 < x.rep.2 := by
  cases x with
  | exact q => exact one_pos
  | ratio d p hp => exact hp

theorem SimScore.val_eq_rep (x : SimScore) :
    x.val = (x.rep.1 : ℝ) / Real.sqrt (x.rep.2 : ℝ) := by
  cases x with
  | exact q => simp [SimScore.val, SimScore.rep]
  | ratio d p hp => rfl

/-- Core sign-analysis fact: for positive radicands,
`d / sqrt p ≤ e / sqrt r` is decided by the comparator's case split. -/
theorem le_ratio_iff (d p e r : ℚ) (hp : 0 < p) (hr : 0 < r) :
    (if d ≤ 0 then
      if 0 ≤ e then True
      else e * e * p ≤ d * d * r
    else
      if e ≤ 0 then False
      else d * d * r ≤ e * e * p) ↔
    (d : ℝ) / Real.sqrt (p : ℝ) ≤ (e : ℝ) / Real.sqrt (r : ℝ) := by
  have hp' : (0 : ℝ) < (p : ℝ) := by exact_mod_cast hp
  have hr' : (0 : ℝ) < (r : ℝ) := by exact_mod_cast hr
  have hsp : (0 : ℝ) < Real.sqrt (p : ℝ) := Real.sqrt_pos.mpr hp'
  have hsr : (0 : ℝ) < Real.sqrt (r : ℝ) := Real.sqrt_pos.mpr hr'
  have hmp : Real.sqrt (p : ℝ) * Real.sqrt (p : ℝ) = (p : ℝ) :=
    Real.mul_self_sqrt hp'.le
  have hmr : Real.sqrt (r : ℝ) * Real.sqrt (r : ℝ) = (r : ℝ) :=
    Real.mul_self_sqrt hr'.le
  rw [div_le_div_iff₀ hsp hsr]
  by_cases hd : d ≤ 0
  · have hd' : (d : ℝ) ≤ 0 := by exact_mod_cast hd
    by_cases he : 0 ≤ e
    · have he' : (0 : ℝ) ≤ (e : ℝ) := by exact_mod_cast he
      simp only [hd, he, if_true]
      constructor
      · intro _
        calc (d : ℝ) * Real.sqrt (r : ℝ) ≤ 0 := mul_nonpos_of_nonpos_of_nonneg hd' hsr.le
        _ ≤ (e : ℝ) * Real.sqrt (p : ℝ) := mul_nonneg he' hsp.le
      · intro _; trivial
    · have he' : (e : ℝ) < 0 := by
        have h0 : ¬ ((0 : ℝ) ≤ (e : ℝ)) := by exact_mod_cast he
        linarith
      simp only [hd, he, if_true, if_false]
      have key : ((d : ℝ) * Real.sqrt (r : ℝ) ≤ (e : ℝ) * Real.sqrt (p : ℝ)) ↔
          ((-(e : ℝ)) * Real.sqrt (p : ℝ) ≤ (-(d : ℝ)) * Real.sqrt (r : ℝ)) := by
        constructor <;> intro h <;> linarith
      have sq : ((-(e : ℝ)) * Real.sqrt (p : ℝ) ≤ (-(d : ℝ)) * Real.sqrt (r : ℝ)) ↔
          ((-(e : ℝ)) * Real.sqrt (p : ℝ) * ((-(e : ℝ)) * Real.sqrt (p : ℝ)) ≤
            (-(d : ℝ)) * Real.sqrt (r : ℝ) * ((-(d : ℝ)) * Real.sqrt (r : ℝ))) :=
        mul_self_le_mul_self_iff (mul_nonneg (by linarith) hsp.le)
          (mul_nonneg (by linarith) hsr.le)
      have exp1 : (-(e : ℝ)) * Real.sqrt (p : ℝ) * ((-(e : ℝ)) * Real.sqrt (p : ℝ)) =
          (e : ℝ) * (e : ℝ) * (p : ℝ) := by
        calc (-(e : ℝ)) * Real.sqrt (p : ℝ) * ((-(e : ℝ)) * Real.sqrt (p : ℝ)) =
            (e : ℝ) * (e : ℝ) * (Real.sqrt (p : ℝ) * Real.sqrt (p : ℝ)) := by ring
        _ = (e : ℝ) * (e : ℝ) * (p : ℝ) := by rw [hmp]
      have exp2 : (-(d : ℝ)) * Real.sqrt (r : ℝ) * ((-(d : ℝ)) * Real.sqrt (r : ℝ)) =
          (d : ℝ) * (d : ℝ) * (r : ℝ) := by
        calc (-(d : ℝ)) * Real.sqrt (r : ℝ) * ((-(d : ℝ)) * Real.sqrt (r : ℝ)) =
            (d : ℝ) * (d : ℝ) * (Real.sqrt (r : ℝ) * Real.sqrt (r : ℝ)) := by ring
        _ = (d : ℝ) * (d : ℝ) * (r : ℝ) := by rw [hmr]
      rw [key, sq, exp1, exp2]
      constructor <;> intro h <;> exact_mod_cast h
  · have hd' : (0 : ℝ) < (d : ℝ) := by
      have h0 : ¬ ((d : ℝ) ≤ 0) := by exact_mod_cast hd
      linarith
    by_cases he : e ≤ 0
    · have he' : (e : ℝ) ≤ 0 := by exact_mod_cast he
      simp only [hd, he, if_true, if_false]
      constructor
      · intro h; exact h.elim
      · intro h
        have h1 : (0 : ℝ) < (d : ℝ) * Real.sqrt (r : ℝ) := mul_pos hd' hsr
        have h2 : (e : ℝ) * Real.sqrt (p : ℝ) ≤ 0 := mul_nonpos_of_nonpos_of_nonneg he' hsp.le
        linarith
    · have he' : (0 : ℝ) < (e : ℝ) := by
        have h0 : ¬ ((e : ℝ) ≤ 0) := by exact_mod_cast he
        linarith
      simp only [hd, he, if_false]
      have sq : ((d : ℝ) * Real.sqrt (r : ℝ) ≤ (e : ℝ) * Real.sqrt (p : ℝ)) ↔
          ((d : ℝ) * Real.sqrt (r : ℝ) * ((d : ℝ) * Real.sqrt (r : ℝ)) ≤
            (e : ℝ) * Real.sqrt (p : ℝ) * ((e : ℝ) * Real.sqrt (p : ℝ))) :=
        mul_self_le_mul_self_iff (mul_nonneg hd'.le hsr.le) (mul_nonneg he'.le hsp.le)
      have exp1 : (d : ℝ) * Real.sqrt (r : ℝ) * ((d : ℝ) * Real.sqrt (r : ℝ)) =
          (d : ℝ) * (d : ℝ) * (r : ℝ) := by
        calc (d : ℝ) * Real.sqrt (r : ℝ) * ((d : ℝ) * Real.sqrt (r : ℝ)) =
            (d : ℝ) * (d : ℝ) * (Real.sqrt (r : ℝ) * Real.sqrt (r : ℝ)) := by ring
        _ = (d : ℝ) * (d : ℝ) * (r : ℝ) := by rw [hmr]
      have exp2 : (e : ℝ) * Real.sqrt (p : ℝ) * ((e : ℝ) * Real.sqrt (p : ℝ)) =
          (e : ℝ) * (e : ℝ) * (p : ℝ) := by
        calc (e : ℝ) * Real.sqrt (p : ℝ) * ((e : ℝ) * Real.sqrt (p : ℝ)) =
            (e : ℝ) * (e : ℝ) * (Real.sqrt (p : ℝ) * Real.sqrt (p : ℝ)) := by ring
        _ = (e : ℝ) * (e : ℝ) * (p : ℝ) := by rw [hmp]
      rw [sq, exp1, exp2]
      constructor <;> intro h <;> exact_mod_cast h

/-- The computable comparator agrees with the real-valued denotation. -/
theorem SimScore.le_iff_val (x y : SimScore) : x.le y = true ↔ x.val ≤ y.val := by
  have h := le_ratio_iff x.rep.1 x.rep.2 y.rep.1 y.rep.2 x.rep_pos y.rep_pos
  rw [x.val_eq_rep, y.val_eq_rep, ← h]
  unfold SimScore.le
  by_cases hd : x.rep.1 ≤ 0 <;> by_cases he : 0 ≤ y.rep.1 <;>
    by_cases he' : y.rep.1 ≤ 0 <;> simp [hd, he, he']

theorem SimScore.le_trans {x y z : SimScore}
    (h1 : x.le y = true) (h2 : y.le z = true) : x.le z = true := by
  rw [SimScore.le_iff_val] at *
  exact h1.trans h2

theorem SimScore.le_tot (x y : SimScore) : (x.le y || y.le x) = true := by
  rcases le_total x.val y.val with h | h
  · simp [SimScore.le_iff_val, h]
  · simp [SimScore.le_iff_val, h]

theorem SimScore.val_exact (q : ℚ) : (SimScore.exact q).val = (q : ℝ) := rfl

/-- `dotProduct a b` models the loop
`for i: dot += a[i]*b[i]` over two arrays of the same length. -/
def dotProduct (a b : List ℚ) : ℚ := (List.zipWith (· * ·) a b).sum

theorem dotProduct_self_nonneg (v : List ℚ) : 0 ≤ dotProduct v v := by
  induction v with
  | nil => simp [dotProduct]
  | cons x t ih =>
    have hx : 0 ≤ x * x := mul_self_nonneg x
    simpa [dotProduct, List.zipWith] using add_nonneg hx ih

/-- `calculateCosineSimilarity(vectorA, vectorB)` from `vector-service.js`.

The guard is `!vectorA || !vectorB || vectorA.length !== vectorB.length`;
note that in JavaScript `![]` is `false`, so an *empty* array passes the
truthiness test, and two empty vectors (equal lengths `0 = 0`) fall
through to the zero-magnitude case.  The single pass accumulates
`dotProduct`, `magnitudeA` (= `dotProduct a a` before the square root) and
`magnitudeB`.  The check `magnitudeA === 0 || magnitudeB === 0` happens
after `Math.sqrt`; since `sqrt s = 0` exactly when `s = 0` (for `s ≥ 0`),
it is modelled on the squared magnitudes. -/
def calculateCosineSimilarity (a b : Option (List ℚ)) : Except String SimScore :=
  match a, b with
  | some va, some vb =>
    if va.length = vb.length then
      let d := dotProduct va vb
      let sA := dotProduct va va
      let sB := dotProduct vb vb
      if h : sA = 0 ∨ sB = 0 then .ok (.exact 0)
      else
        .ok (.ratio d (sA * sB)
          (mul_pos
            (lt_of_le_of_ne (dotProduct_self_nonneg va) (fun he => (not_or.mp h).1 he.symm))
            (lt_of_le_of_ne (dotProduct_self_nonneg vb) (fun he => (not_or.mp h).2 he.symm))))
    else .error "Invalid vectors for similarity calculation"
  | _, _ => .error "Invalid vectors for similarity calculation"

/-! ## Vector search (`searchSimilar`) -/

/-- A stored document as seen by the search path: an opaque payload (all
the fields owned by the store) plus the optional `embedding` field.
(The stored `embeddingMetadata` plays no role in search and is part of
the payload.) -/
structure Doc (α : Type) where
  payload : α
  embedding : Option (List ℚ)

/-- A document together with the `similarityScore` attached by
`searchSimilar` (the JavaScript `{...doc, similarityScore}` spread). -/
structure Scored (α : Type) where
  doc : Doc α
  similarityScore : SimScore

/-- The query shape `searchSimilar` sends to the document store:
an `embedding: { $notNull: true }` predicate merged with the caller's
filters, the locale, and the fixed internal retrieval ceiling of 1000. -/
structure StoreQuery where
  embeddingNotNull : Bool
  filters : List (String × String)
  locale : Option String
  limit : ℕ

/-- The document-store boundary (`strapi.documents(ct).findMany`):
takes the content type and the query, returns documents or throws. -/
def Store (α : Type) : Type := String → StoreQuery → Except String (List (Doc α))

/-- The comparator `(a, b) => b.similarityScore - a.similarityScore`
passed to `Array.prototype.sort`: `a` may stay before `b` exactly when
`a`'s score is at least `b`'s.  `Array.prototype.sort` is guaranteed
stable (ECMAScript 2019), which is what `List.mergeSort` with this
comparator implements. -/
def descLE (score : α → SimScore) (a b : α) : Bool := SimScore.le (score b) (score a)

/-- The options object consumed by `searchSimilar` and `semanticSearch`
(with the source's default values supplied by callers). -/
structure SearchOptions where
  limit : ℕ
  threshold : ℚ
  filters : List (String × String)
  locale : Option String
  includeEmbedding : Bool

/-- The `.map` body of `searchSimilar`: a candidate without an embedding
maps to `null` (dropped), a candidate whose similarity computation throws
is caught, logged and also mapped to `null`; otherwise the document is
paired with its `similarityScore`. -/
def scoreDoc (queryEmbedding : Option (List ℚ)) (doc : Doc α) : Option (Scored α) :=
  match doc.embedding with
  | none => none
  | some e =>
    match calculateCosineSimilarity queryEmbedding (some e) with
    | .ok s => some ⟨doc, s⟩
    | .error _ => none

/-- The `.filter` predicate of `searchSimilar`:
`result.similarityScore >= threshold`. -/
def aboveThreshold (threshold : ℚ) (r : Scored α) : Bool :=
  SimScore.le (.exact threshold) r.similarityScore

/-- `searchSimilar(queryEmbedding, contentType, options)` from
`vector-service.js`: guard falsy arguments, fetch up to 1000 candidate
documents with an embedding, score each candidate (dropping candidates
without an embedding and candidates whose similarity computation throws),
filter by `similarityScore >= threshold`, sort descending by score
(stable), and truncate to `limit`. -/
def searchSimilar (store : Store α) (queryEmbedding : Option (List ℚ))
    (contentType : String) (opts : SearchOptions) :
    Except String (List (Scored α)) :=
  if queryEmbedding = none ∨ contentType = "" then
    .error "Query embedding and content type are required"
  else do
    let documents ← store contentType ⟨true, opts.filters, opts.locale, 1000⟩
    if documents.length = 0 then return []
    let scored := documents.filterMap (scoreDoc queryEmbedding)
    let kept := scored.filter (aboveThreshold opts.threshold)
    return (kept.mergeSort (descLE Scored.similarityScore)).take opts.limit

/-! ## Search orchestration (`semanticSearch`, `multiContentTypeSearch`) -/

/-- A per-collection search outcome as consumed by `multiContentTypeSearch`:
either the response object built by `semanticSearch` (with `error` absent)
or the fallback object built in the `.catch` handler (empty `results`,
`error` holding the message).  The fallback carries no metadata fields; the
numeric metadata defaults to 0 in the model. -/
structure SearchEntry (α : Type) where
  query : List Char
  contentType : String
  results : List (Scored α)
  error : Option String
  totalResults : ℕ
  embeddingDimensions : ℕ

/-- `semanticSearch(query, contentType, options)` from
`search-service.js`: embed the query (failures propagate — the search
path fails closed), run `searchSimilar`, strip the `embedding`
field from each result unless `includeEmbedding` was requested, and wrap
with response metadata.  (The echoed searchOptions metadata is omitted
from the model; nothing reads it.  The source's
`if (!queryResult || !queryResult.embedding)` re-check can never fire: a
successful `generateEmbedding` returns an object whose `embedding` is an
array, and arrays are truthy in JavaScript.) -/
def semanticSearch (init : Bool) (prov : Provider) (store : Store α)
    (query : List Char) (contentType : String) (opts : SearchOptions) :
    Except String (SearchEntry α) :=
  if query = [] ∨ contentType = "" then .error "Query and content type are required"
  else do
    let queryResult ← (generateEmbedding init prov (some query)).mapError EmbError.message
    let results ← searchSimilar store (some queryResult.embedding) contentType opts
    let cleanResults := results.map (fun r =>
      if opts.includeEmbedding then r else ⟨⟨r.doc.payload, none⟩, r.similarityScore⟩)
    return ⟨query, contentType, cleanResults, none, cleanResults.length,
      queryResult.embedding.length⟩

/-- An aggregated result entry: `{...result, contentType}`. -/
structure TaggedResult (α : Type) where
  result : Scored α
  contentType : String

/-- One entry of `metadata.individualResults` in aggregated mode. -/
structure IndividualMeta where
  contentType : String
  count : ℕ
  hasError : Bool

/-- The response of `multiContentTypeSearch`, one shape per aggregation
mode. -/
inductive MultiResponse (α : Type) where
  | aggregated (query : List Char) (contentTypes : List String)
      (results : List (TaggedResult α)) (totalResults : ℕ)
      (individualResults : List IndividualMeta)
  | separate (query : List Char) (contentTypes : List String)
      (results : List (SearchEntry α)) (totalContentTypes : ℕ)
      (successfulSearches : ℕ)

/-- Options of `multiContentTypeSearch` (defaults supplied by callers). -/
structure MultiOptions where
  limit : ℕ
  threshold : ℚ
  aggregateResults : Bool

/-- JavaScript truthiness of the optional `error` field: absent is falsy,
and so is an empty message string. -/
def errTruthy : Option String → Bool
  | none => false
  | some s => s ≠ ""

/-- The per-collection promise body of `multiContentTypeSearch` for one
content type: the `semanticSearch` call with the caller's options (only
`limit` is adjusted for aggregation; `filters`, `locale` and
`includeEmbedding` take their defaults), resolved through the attached
`.catch` handler, which converts a rejection into the fallback entry
`{query, contentType, results: [], error: message}`. -/
def multiEntry (init : Bool) (prov : Provider) (store : Store α) (query : List Char)
    (subLimit : ℕ) (threshold : ℚ) (ct : String) : SearchEntry α :=
  match semanticSearch init prov store query ct ⟨subLimit, threshold, [], none, false⟩ with
  | .ok r => r
  | .error e => ⟨query, ct, [], some e, 0, 0⟩

/-- Spec-side recomposition of the aggregated candidate pool: every
collection's successful sub-search results (issued at the given
`subLimit`) tagged with their origin collection, in collection order;
failed collections contribute nothing. -/
def aggCandidates (init : Bool) (prov : Provider) (store : Store α) (query : List Char)
    (subLimit : ℕ) (threshold : ℚ) (cts : List String) : List (TaggedResult α) :=
  cts.flatMap (fun ct =>
    match semanticSearch init prov store query ct ⟨subLimit, threshold, [], none, false⟩ with
    | .ok r => r.results.map (fun res => TaggedResult.mk res ct)
    | .error _ => [])

/-- `multiContentTypeSearch(query, contentTypes, options)` from
`search-service.js`.  One `semanticSearch` per content type runs under
`Promise.all`; each promise has its own `.catch` producing the fallback
entry, so a failing collection never rejects the whole call (the outer
try/catch is unreachable past the input guard).  In aggregated mode each
sub-search is issued with limit `Math.ceil(limit * 1.5)`, all successful
results are tagged with their collection and re-sorted descending by
score, then truncated to `limit`; in separate mode the per-collection
entries are returned as-is together with the count of searches whose
entry has no (truthy) `error`. -/
def multiContentTypeSearch (init : Bool) (prov : Provider) (store : Store α)
    (query : List Char) (contentTypes : List String) (opts : MultiOptions) :
    Except String (MultiResponse α) :=
  if query = [] ∨ contentTypes = [] then
    .error "Query and content types array are required"
  else
    let subLimit := if opts.aggregateResults then Nat.ceil ((opts.limit : ℚ) * (3 / 2))
      else opts.limit
    let searchResults := contentTypes.map
      (multiEntry init prov store query subLimit opts.threshold)
    if opts.aggregateResults then
      let allResults := searchResults.flatMap (fun sr =>
        sr.results.map (fun r => TaggedResult.mk r sr.contentType))
      let sortedResults :=
        (allResults.mergeSort (descLE (fun tr => tr.result.similarityScore))).take opts.limit
      .ok (.aggregated query contentTypes sortedResults sortedResults.length
        (searchResults.map (fun sr => ⟨sr.contentType, sr.results.length, errTruthy sr.error⟩)))
    else
      .ok (.separate query contentTypes searchResults contentTypes.length
        (searchResults.filter (fun sr => !errTruthy sr.error)).length)

/-! ## Auto-index lifecycle hook (`processDocumentEmbedding`) -/

/-- A field value in the in-flight write payload.  JavaScript inspects
`typeof`: strings are appended directly; arrays and nested objects are
appended as their `JSON.stringify` image, which the model carries as the
constructor argument (serialisation itself is external to the algorithm).
Other primitive types (numbers, booleans) fall through no branch and are
skipped, like absent fields. -/
inductive FieldValue where
  | str (s : List Char)
  | arr (json : List Char)
  | obj (json : List Char)
deriving DecidableEq

/-- The `embeddingMetadata` object attached on success. -/
structure EmbedMeta where
  model : String
  generatedAt : String
  dimensions : ℕ
  processedText : List Char
  originalLength : ℕ
  processedLength : ℕ

/-- The in-flight write payload (`params.data`): the ordinary attributes
plus the `embedding`/`embeddingMetadata` fields the hook may attach. -/
structure WriteData where
  attrs : List (String × FieldValue)
  embedding : Option (List ℚ)
  embeddingMetadata : Option EmbedMeta

/-- The fallback field list used when a content type has no configured
mapping. -/
def defaultTextFields : List String :=
  ["title", "name", "content", "body", "summary", "description", "excerpt"]

/-- `extractTextContent(data, modelName, strapi)`: walk the configured
field names in order; a truthy string field appends `value + ' '`, an
array or nested object appends `JSON.stringify(value) + ' '` (arrays and
objects are always truthy, the empty string is not); finally trim. -/
def extractTextContent (data : WriteData) (textFields : List String) : List Char :=
  trimWs (textFields.foldl (fun acc field =>
    match data.attrs.lookup field with
    | some (.str s) => if s = [] then acc else acc ++ s ++ [' ']
    | some (.arr j) => acc ++ j ++ [' ']
    | some (.obj j) => acc ++ j ++ [' ']
    | none => acc) [])

/-- Prefix test on names (JavaScript `String.prototype.startsWith`),
kept kernel-computable. -/
def strStarts (s pat : String) : Bool :=
  decide (s.toList.take pat.toList.length = pat.toList)

/-- `processDocumentEmbedding(event, action, strapi)` from the plugin's
server entry.  `cfgFields` is the configured field list for the model (or
`none` for the default list); `now` stands for `new Date().toISOString()`.
The whole body after the content-type guard runs in a `try` whose `catch`
only logs — embedding failure must never block the write, so the function
totally returns a payload, and on any failure it is the unmodified input.
(On success the result's `embedding` field is always attached: a returned
embedding array is truthy in JavaScript even when empty.) -/
def processDocumentEmbedding (init : Bool) (prov : Provider)
    (cfgFields : Option (List String)) (now : String) (modelName : String)
    (data : WriteData) : WriteData :=
  if strStarts modelName "admin::" || strStarts modelName "plugin::" ||
      modelName == "plugin::users-permissions.user" then data
  else
    let textContent := extractTextContent data (cfgFields.getD defaultTextFields)
    if textContent = [] ∨ (trimWs textContent).length < 10 then data
    else
      match generateEmbedding init prov (some textContent) with
      | .error _ => data
      | .ok r =>
        ⟨data.attrs, some r.embedding,
          some ⟨"text-embedding-ada-002", now, r.embedding.length, r.processedText,
            r.originalLength, r.processedLength⟩⟩


/-! ## Spec-side helpers -/

/-- The result list of a search outcome; a thrown search has no results. -/
def okResults : Except String (List (Scored α)) → List (Scored α)
  | .ok rs => rs
  | .error _ => []

/-- A candidate list with each candidate's input position recorded as its
payload: candidate `i` of the input becomes document `⟨i, es[i]⟩`.  Used
to state order-stability relative to the input list. -/
def indexedDocs (es : List (Option (List ℚ))) : List (Doc ℕ) :=
  es.enum.map (fun p => ⟨p.1, p.2⟩)

/-- No markup match remains: every `<` in the list has no `>` anywhere
after it, so the tag-stripping regex matches nothing. -/
def Clean : List Char → Prop
  | [] => True
  | c :: rest => (c = '<' → '>' ∉ rest) ∧ Clean rest

/-- Every whitespace character in the list is a plain space. -/
def WsIsSpace (l : List Char) : Prop := ∀ c ∈ l, isWs c = true → c = ' '

/-- No two adjacent whitespace characters. -/
abbrev NoWsRun (l : List Char) : Prop :=
  l.Chain' (fun a b => ¬ (isWs a = true ∧ isWs b = true))

/-- A store that returns a fixed candidate list for every query. -/
def storeOf (docs : List (Doc α)) : Store α := fun _ _ => .ok docs

/-! ## Concrete fixtures used by witness theorems -/

/-- A concrete write payload: an article with only a title. -/
def dataC2 : WriteData := ⟨[("title", FieldValue.str "hello world".toList)], none, none⟩

/-- A provider that always reports a rate limit. -/
def provFail : Provider := fun _ => .error .rateLimitExceeded

/-- A provider that always succeeds with a fixed one-dimensional vector. -/
def provOk : Provider := fun _ => .ok [1]

/-- Three concrete batch inputs, each long enough to embed. -/
def tsC6 : List (List Char) :=
  ["hello world".toList, "another sample".toList, "third text here".toList]

/-- A store where the `blogs` collection's query throws and every other
collection returns one document embedded as `[1]`. -/
def storeC1 : Store ℕ := fun ct _ =>
  if ct = "blogs" then .error "Store query failed" else .ok [⟨0, some [1]⟩]

/-- A concrete search query. -/
def mlQuery : List Char := "machine learning".toList

/-! ## Claims about the similarity engine -/

/-- C3 counterexample: the claim says `cosineSimilarity` fails whenever
either vector is empty, but for two *empty* vectors the JavaScript guard
passes (`![]` is `false` and the lengths agree), the loop runs zero times,
and the zero-magnitude case returns 0 instead of throwing. -/
theorem claim_C3_counterexample :
    calculateCosineSimilarity (some ([] : List ℚ)) (some []) = .ok (.exact 0) := by
  simp [calculateCosineSimilarity, dotProduct]

/-- C3 (amended): `calculateCosineSimilarity` fails exactly when a vector
is absent or the lengths differ; in particular it fails whenever exactly
one vector is empty, but two empty vectors fall through to the defined
zero case. -/
theorem claim_C3 (a b : Option (List ℚ)) :
    (calculateCosineSimilarity a b).isOk = true ↔
      ∃ va vb, a = some va ∧ b = some vb ∧ va.length = vb.length := by
  cases a with
  | none => simp [calculateCosineSimilarity, Except.isOk, Except.toBool]
  | some va =>
    cases b with
    | none => simp [calculateCosineSimilarity, Except.isOk, Except.toBool]
    | some vb =>
      by_cases h : va.length = vb.length
      · simp only [calculateCosineSimilarity, h, if_true]
        constructor
        · intro _
          exact ⟨va, vb, rfl, rfl, h⟩
        · intro _
          split <;> rfl
      · simp [calculateCosineSimilarity, h, Except.isOk, Except.toBool]

/-- C9: for equal-length vectors, if either magnitude
(`Math.sqrt` of the accumulated sum of squares) is exactly zero, the
function takes the defined zero branch and returns exactly 0 — no
division by zero and no NaN. -/
theorem claim_C9 (va vb : List ℚ)
    (hlen : va.length = vb.length)
    (hz : Real.sqrt ((dotProduct va va : ℚ) : ℝ) = 0 ∨
          Real.sqrt ((dotProduct vb vb : ℚ) : ℝ) = 0) :
    calculateCosineSimilarity (some va) (some vb) = .ok (.exact 0) ∧
      (SimScore.exact 0).val = 0 := by
  have hz' : dotProduct va va = 0 ∨ dotProduct vb vb = 0 := by
    rcases hz with h | h
    · left
      have h0 : ((dotProduct va va : ℚ) : ℝ) = 0 := by
        have hnn : (0 : ℝ) ≤ ((dotProduct va va : ℚ) : ℝ) := by
          exact_mod_cast dotProduct_self_nonneg va
        rwa [Real.sqrt_eq_zero hnn] at h
      exact_mod_cast h0
    · right
      have h0 : ((dotProduct vb vb : ℚ) : ℝ) = 0 := by
        have hnn : (0 : ℝ) ≤ ((dotProduct vb vb : ℚ) : ℝ) := by
          exact_mod_cast dotProduct_self_nonneg vb
        rwa [Real.sqrt_eq_zero hnn] at h
      exact_mod_cast h0
  refine ⟨?_, by simp [SimScore.val]⟩
  simp only [calculateCosineSimilarity, hlen, if_true]
  rw [dif_pos hz']

/-- C9 witness: the all-zeros vector against `[3, 4]`. -/
theorem claim_C9_witness :
    (([0, 0] : List ℚ).length = ([3, 4] : List ℚ).length ∧
      Real.sqrt ((dotProduct [0, 0] [0, 0] : ℚ) : ℝ) = 0) ∧
    calculateCosineSimilarity (some [0, 0]) (some [3, 4]) = .ok (.exact 0) := by
  have h1 : (([0, 0] : List ℚ)).length = ([3, 4] : List ℚ).length := by decide
  have h2 : Real.sqrt ((dotProduct [0, 0] [0, 0] : ℚ) : ℝ) = 0 := by
    have hd : dotProduct ([0, 0] : List ℚ) [0, 0] = 0 := by
      simp [dotProduct]
    rw [hd]
    simp
  exact ⟨⟨h1, h2⟩, (claim_C9 [0, 0] [3, 4] h1 (Or.inl h2)).1⟩

/-! ## Claims about the auto-index trigger -/

/-- C2: the auto-index hook fails open.  Whenever the embedding call
fails — with any error, including every provider failure class — the hook
absorbs the error (the function models the `catch` that only logs, so it
returns totally rather than propagating) and the outgoing write payload is
returned completely unmodified. -/
theorem claim_C2 (init : Bool) (prov : Provider) (cfgFields : Option (List String))
    (now : String) (modelName : String) (data : WriteData) (e : EmbError)
    (h : generateEmbedding init prov
        (some (extractTextContent data (cfgFields.getD defaultTextFields))) = .error e) :
    processDocumentEmbedding init prov cfgFields now modelName data = data := by
  unfold processDocumentEmbedding
  split
  · rfl
  · dsimp only
    split
    · rfl
    · rw [h]

/-- C2 witness: a rate-limited provider during an article write; the
payload comes back untouched. -/
theorem claim_C2_witness :
    generateEmbedding true provFail
        (some (extractTextContent dataC2 ((none : Option (List String)).getD defaultTextFields))) =
      .error .rateLimited ∧
    processDocumentEmbedding true provFail none "2025-01-01" "api::article.article" dataC2 =
      dataC2 := by
  have hex : extractTextContent dataC2 ((none : Option (List String)).getD defaultTextFields) =
      "hello world".toList := by
    simp [extractTextContent, dataC2, defaultTextFields, List.lookup, trimWs, trimLeftWs,
      trimRightWs, isWs]
  have hpre : preprocessText (some "hello world".toList) = "hello world".toList := by
    simp [preprocessText, normalizeText, trimWs, trimLeftWs, trimRightWs, collapseWs,
      stripTags, isWs]
  have h : generateEmbedding true provFail
      (some (extractTextContent dataC2 ((none : Option (List String)).getD defaultTextFields))) =
      .error .rateLimited := by
    rw [hex]
    simp only [generateEmbedding, hpre]
    simp [provFail, mapProviderError, trimWs, trimLeftWs, trimRightWs, isWs]
  exact ⟨h, claim_C2 true provFail none "2025-01-01" "api::article.article" dataC2
    .rateLimited h⟩

/-! ## Claims about the embedding client -/

/-- C4 counterexample: a whitespace-only input normalizes to the empty
string (length 0, which is under 10), but `generateEmbedding` rejects it
earlier with the `Text is required` error, not with `TextTooShort`. -/
theorem claim_C4_counterexample :
    (preprocessText (some [' '])).length < 10 ∧
    generateEmbedding true provFail (some [' ']) = .error .textRequired ∧
    EmbError.textRequired ≠ EmbError.textTooShort := by
  refine ⟨?_, ?_, by decide⟩
  · simp [preprocessText, normalizeText, stripTags, collapseWs, trimWs, trimLeftWs,
      trimRightWs, isWs]
  · simp [generateEmbedding, trimWs, trimLeftWs, trimRightWs, isWs]

/-- C4 (amended): for every input that is *non-empty after trimming*, if
the normalized result is under 10 characters then `generateEmbedding`
(with an initialized client) fails with `TextTooShort`; inputs that are
empty or whitespace-only fail earlier with the missing-text error
instead. -/
theorem claim_C4 (prov : Provider) (t : List Char)
    (hne : trimWs t ≠ [])
    (hshort : (preprocessText (some t)).length < 10) :
    generateEmbedding true prov (some t) = .error .textTooShort := by
  have hguard : ¬ (t = [] ∨ (trimWs t).length = 0) := by
    rintro (rfl | hlen)
    · exact hne rfl
    · exact hne (List.length_eq_zero.mp hlen)
  simp only [generateEmbedding, Bool.true_eq_false, if_false, hguard, if_neg,
    not_false_eq_true, hshort, if_pos]

/-- C4 witness: the spec's own scenario, the 3-character input `"ab "`. -/
theorem claim_C4_witness :
    (trimWs "ab ".toList ≠ [] ∧ (preprocessText (some "ab ".toList)).length < 10) ∧
    generateEmbedding true provFail (some "ab ".toList) = .error .textTooShort := by
  have h1 : trimWs "ab ".toList ≠ [] := by decide
  have h2 : (preprocessText (some "ab ".toList)).length < 10 := by
    simp [preprocessText, normalizeText, stripTags, collapseWs, trimWs, trimLeftWs,
      trimRightWs, isWs]
  exact ⟨⟨h1, h2⟩, claim_C4 provFail "ab ".toList h1 h2⟩

theorem batchLoop_eq_mapM (f : α → Except ε β) (l : List α) :
    batchLoop f l = l.mapM f := by
  induction l using batchLoop.induct f with
  | case1 =>
    rw [batchLoop, List.mapM_nil]
    rfl
  | case2 a tl ih =>
    rw [batchLoop]
    conv_rhs => rw [← List.take_append_drop 10 (a :: tl), List.mapM_append]
    rw [ih]

theorem generateEmbedding_ok_shape {init : Bool} {prov : Provider} {t : List Char}
    {r : EmbedResult} (h : generateEmbedding init prov (some t) = .ok r) :
    r.originalLength = t.length := by
  unfold generateEmbedding at h
  split at h
  · exact absurd h (by simp)
  dsimp only at h
  split at h
  · exact absurd h (by simp)
  split at h
  · exact absurd h (by simp)
  split at h
  · cases h
    rfl
  · exact absurd h (by simp)

/-- C6: when every item of a non-empty batch embeds successfully, the
batch result has exactly one entry per input, in input order: the i-th
output is the embedding result of the i-th input (in particular its
`originalLength` is the length of the i-th text).  The chunked
`Promise.all` loop is order-preserving by construction, independent of
the completion order of the concurrent calls. -/
theorem claim_C6 (init : Bool) (prov : Provider) (ts : List (List Char))
    (hne : ts ≠ [])
    (hok : ∀ t ∈ ts, (generateEmbedding init prov (some t)).isOk = true) :
    ∃ rs, generateBatchEmbeddings init prov (ts.map some) = .ok rs ∧
      rs.length = ts.length ∧
      List.Forall₂ (fun t r => generateEmbedding init prov (some t) = .ok r ∧
        r.originalLength = t.length) ts rs := by
  have hlen : (ts.map some).length ≠ 0 := by
    simpa using fun h => hne (List.length_eq_zero.mp h)
  have main : ∀ us : List (List Char),
      (∀ t ∈ us, (generateEmbedding init prov (some t)).isOk = true) →
      ∃ rs, (us.map some).mapM (generateEmbedding init prov) = .ok rs ∧
        List.Forall₂ (fun t r => generateEmbedding init prov (some t) = .ok r ∧
          r.originalLength = t.length) us rs := by
    intro us
    induction us with
    | nil =>
      intro _
      exact ⟨[], by simp [List.mapM_nil]; rfl, List.Forall₂.nil⟩
    | cons t us ih =>
      intro hall
      obtain ⟨r, hr⟩ : ∃ r, generateEmbedding init prov (some t) = .ok r := by
        have h1 := hall t (by simp)
        cases hg : generateEmbedding init prov (some t) with
        | ok r => exact ⟨r, rfl⟩
        | error e => rw [hg] at h1; exact absurd h1 (by simp [Except.isOk, Except.toBool])
      obtain ⟨rs, hrs, hfa⟩ := ih (fun u hu => hall u (by simp [hu]))
      refine ⟨r :: rs, ?_, List.Forall₂.cons ⟨hr, generateEmbedding_ok_shape hr⟩ hfa⟩
      rw [List.map_cons, List.mapM_cons, hr, hrs]
      rfl
  obtain ⟨rs, hrs, hfa⟩ := main ts hok
  refine ⟨rs, ?_, hfa.length_eq.symm, hfa⟩
  rw [generateBatchEmbeddings, if_neg hlen, batchLoop_eq_mapM, hrs]

theorem claim_C6_witness :
    (tsC6 ≠ [] ∧ ∀ t ∈ tsC6, (generateEmbedding true provOk (some t)).isOk = true) ∧
    ∃ rs, generateBatchEmbeddings true provOk (tsC6.map some) = .ok rs ∧
      rs.length = tsC6.length ∧
      List.Forall₂ (fun t r => generateEmbedding true provOk (some t) = .ok r ∧
        r.originalLength = t.length) tsC6 rs := by
  have h1 : tsC6 ≠ [] := by simp [tsC6]
  have h2 : ∀ t ∈ tsC6, (generateEmbedding true provOk (some t)).isOk = true := by
    intro t ht
    simp only [tsC6, List.mem_cons, List.not_mem_nil, or_false] at ht
    rcases ht with rfl | rfl | rfl <;>
      simp [generateEmbedding, provOk, preprocessText, normalizeText, stripTags,
        collapseWs, trimWs, trimLeftWs, trimRightWs, isWs, Except.isOk, Except.toBool]
  exact ⟨⟨h1, h2⟩, claim_C6 true provOk tsC6 h1 h2⟩

/-! ## Sorting lemmas for the descending stable sort -/

theorem descLE_trans (score : α → SimScore) (a b c : α)
    (h1 : descLE score a b = true) (h2 : descLE score b c = true) :
    descLE score a c = true :=
  SimScore.le_trans h2 h1

theorem descLE_tot (score : α → SimScore) (a b : α) :
    (descLE score a b || descLE score b a) = true :=
  SimScore.le_tot (score b) (score a)

/-- The sort in `searchSimilar` / `multiContentTypeSearch` produces a list
whose scores are non-increasing (in the real-valued denotation). -/
theorem mergeSort_desc_sorted (score : α → SimScore) (l : List α) :
    (l.mergeSort (descLE score)).Pairwise
      (fun a b => (score b).val ≤ (score a).val) := by
  have hs := List.sorted_mergeSort (descLE_trans score) (descLE_tot score) l
  exact hs.imp (fun h => (SimScore.le_iff_val _ _).mp h)

/-- Stability of the descending sort: if some strictly increasing index
`pidx` is attached to the input elements, then in the sorted output the
scores are non-increasing and ties keep the input order of indices. -/
theorem mergeSort_desc_stable (score : α → SimScore) (pidx : α → ℕ) (l : List α)
    (h : l.Pairwise (fun a b => pidx a < pidx b)) :
    (l.mergeSort (descLE score)).Pairwise
      (fun a b => (score b).val ≤ (score a).val ∧
        ((score a).val = (score b).val → pidx a < pidx b)) := by
  classical
  set le := descLE score with hle
  have hnodupEnum : l.enum.Nodup :=
    List.Nodup.of_map Prod.fst (by rw [List.enum_map_fst]; exact List.nodup_range _)
  have hsorted : (l.enum.mergeSort (List.enumLE le)).Pairwise
      (fun p q => List.enumLE le p q = true) :=
    List.sorted_mergeSort (List.enumLE_trans (descLE_trans score))
      (List.enumLE_total (descLE_tot score)) l.enum
  have hnodup : (l.enum.mergeSort (List.enumLE le)).Nodup :=
    ((List.mergeSort_perm l.enum (List.enumLE le)).nodup_iff).mpr hnodupEnum
  have hcomb := List.Pairwise.and hsorted hnodup
  have hstrong : (l.enum.mergeSort (List.enumLE le)).Pairwise
      (fun p q => (score q.2).val ≤ (score p.2).val ∧
        ((score p.2).val = (score q.2).val → pidx p.2 < pidx q.2)) := by
    refine hcomb.imp_of_mem ?_
    intro p q hpmem hqmem hpq
    obtain ⟨henum, hne⟩ := hpq
    have hpmem' : p ∈ l.enum := List.mem_mergeSort.mp hpmem
    have hqmem' : q ∈ l.enum := List.mem_mergeSort.mp hqmem
    obtain ⟨i, a⟩ := p
    obtain ⟨j, b⟩ := q
    have hpi := List.mem_enumFrom (by simpa [List.enum] using hpmem')
    have hqj := List.mem_enumFrom (by simpa [List.enum] using hqmem')
    simp only [Nat.zero_add, Nat.zero_le, true_and, Nat.sub_zero] at hpi hqj
    obtain ⟨hi, ha⟩ := hpi
    obtain ⟨hj, hb⟩ := hqj
    simp only [List.enumLE] at henum
    by_cases h1 : le a b = true
    · rw [if_pos h1] at henum
      have hval : (score b).val ≤ (score a).val := (SimScore.le_iff_val _ _).mp h1
      refine ⟨hval, fun heq => ?_⟩
      have h2 : le b a = true := by
        rw [hle]
        exact (SimScore.le_iff_val _ _).mpr (le_of_eq heq)
      rw [if_pos h2] at henum
      have hij : i ≤ j := by simpa using henum
      have hij' : i < j := by
        rcases lt_or_eq_of_le hij with hlt | hEq
        · exact hlt
        · exfalso
          apply hne
          subst hEq
          rw [ha, hb]
      have := (List.pairwise_iff_getElem.mp h) i j hi hj hij'
      rwa [ha, hb]
    · rw [if_neg h1] at henum
      exact absurd henum (by simp)
  have hmap : ((l.enum.mergeSort (List.enumLE le)).map (fun p : ℕ × α => p.2)).Pairwise
      (fun a b => (score b).val ≤ (score a).val ∧
        ((score a).val = (score b).val → pidx a < pidx b)) :=
    List.pairwise_map.mpr hstrong
  rw [List.mergeSort_enum] at hmap
  exact hmap

theorem scoreDoc_doc {q : Option (List ℚ)} {d : Doc α} {s : Scored α}
    (h : scoreDoc q d = some s) : s.doc = d := by
  unfold scoreDoc at h
  split at h
  · cases h
  · split at h
    · cases h
      rfl
    · cases h

/-- Unfolding of `searchSimilar` in the successful-store case.  (When the
store returns no documents the early `return []` and the generic pipeline
agree, since every stage maps `[]` to `[]`.) -/
theorem searchSimilar_eq (store : Store α) (q : Option (List ℚ)) (ct : String)
    (opts : SearchOptions) (docs : List (Doc α))
    (hg : ¬(q = none ∨ ct = ""))
    (hstore : store ct ⟨true, opts.filters, opts.locale, 1000⟩ = .ok docs) :
    searchSimilar store q ct opts = .ok
      ((((docs.filterMap (scoreDoc q)).filter (aboveThreshold opts.threshold)).mergeSort
        (descLE Scored.similarityScore)).take opts.limit) := by
  unfold searchSimilar
  rw [if_neg hg]
  simp only [hstore]
  have hb : ∀ (f : List (Doc α) → Except String (List (Scored α))),
      ((Except.ok docs : Except String (List (Doc α))) >>= f) = f docs := fun _ => rfl
  rw [hb]
  by_cases hd : docs.length = 0
  · have hnil : docs = [] := List.length_eq_zero.mp hd
    subst hnil
    simp only [List.filterMap_nil, List.filter_nil, List.mergeSort_nil, List.take_nil]
    rfl
  · rw [if_neg hd]
    rfl

/-- C8: `searchSimilar` returns at most `limit` results, and every
returned result's similarity score is at least `threshold` — for every
store behaviour, query vector and option set. -/
theorem claim_C8 (store : Store α) (q : Option (List ℚ)) (ct : String)
    (opts : SearchOptions) :
    (okResults (searchSimilar store q ct opts)).length ≤ opts.limit ∧
    (okResults (searchSimilar store q ct opts)).Forall
      (fun r => (opts.threshold : ℝ) ≤ r.similarityScore.val) := by
  by_cases hg : q = none ∨ ct = ""
  · unfold searchSimilar
    rw [if_pos hg]
    simp [okResults]
  · cases hstore : store ct ⟨true, opts.filters, opts.locale, 1000⟩ with
    | error e =>
      unfold searchSimilar
      rw [if_neg hg]
      simp only [hstore]
      have hb : ∀ (f : List (Doc α) → Except String (List (Scored α))),
          ((Except.error e : Except String (List (Doc α))) >>= f) = .error e := fun _ => rfl
      rw [hb]
      simp [okResults]
    | ok docs =>
      rw [searchSimilar_eq store q ct opts docs hg hstore]
      constructor
      · simp only [okResults, List.length_take]
        exact min_le_left _ _
      · rw [List.forall_iff_forall_mem]
        intro r hr
        simp only [okResults] at hr
        have hr1 : r ∈ ((docs.filterMap (scoreDoc q)).filter
            (aboveThreshold opts.threshold)).mergeSort (descLE Scored.similarityScore) :=
          (List.take_sublist _ _).subset hr
        have hr2 := List.mem_mergeSort.mp hr1
        have hr3 := (List.mem_filter.mp hr2).2
        have := (SimScore.le_iff_val (.exact opts.threshold) r.similarityScore).mp hr3
        simpa [SimScore.val] using this

/-- C5: the output of `searchSimilar` is sorted non-increasingly by
similarity score, and results with equal scores appear in the same
relative order as the corresponding candidates in the input list (the
candidate list is presented with each candidate's input position as its
payload, so stability is expressed as: on score ties the payloads
increase).  This holds for every query vector, candidate list and option
set. -/
theorem claim_C5 (q : Option (List ℚ)) (ct : String) (es : List (Option (List ℚ)))
    (opts : SearchOptions) :
    (okResults (searchSimilar (storeOf (indexedDocs es)) q ct opts)).Pairwise
      (fun x y => y.similarityScore.val ≤ x.similarityScore.val ∧
        (x.similarityScore.val = y.similarityScore.val → x.doc.payload < y.doc.payload)) := by
  by_cases hg : q = none ∨ ct = ""
  · unfold searchSimilar
    rw [if_pos hg]
    simp [okResults]
  · rw [searchSimilar_eq (storeOf (indexedDocs es)) q ct opts (indexedDocs es) hg rfl]
    simp only [okResults]
    apply List.Pairwise.sublist (List.take_sublist _ _)
    have h1 : es.enum.Pairwise (fun p q => p.1 < q.1) := by
      rw [List.pairwise_iff_getElem]
      intro i j hi hj hij
      rw [List.getElem_enum, List.getElem_enum]
      exact hij
    have h2 : (indexedDocs es).Pairwise
        (fun a b => a.payload < b.payload) := by
      unfold indexedDocs
      exact (List.pairwise_map.mpr (h1.imp (fun h => h)))
    have h3 : ((indexedDocs es).filterMap (scoreDoc q)).Pairwise
        (fun x y => x.doc.payload < y.doc.payload) := by
      rw [List.pairwise_filterMap]
      refine h2.imp ?_
      intro a b hab x hx y hy
      rw [scoreDoc_doc hx, scoreDoc_doc hy]
      exact hab
    have h4 : (((indexedDocs es).filterMap (scoreDoc q)).filter
        (aboveThreshold opts.threshold)).Pairwise
        (fun x y => x.doc.payload < y.doc.payload) :=
      h3.sublist (List.filter_sublist _)
    exact mergeSort_desc_stable Scored.similarityScore (fun s => s.doc.payload) _ h4

/-! ## Lemmas about the orchestration layer -/

theorem except_bind_error {ε A B : Type} (e : ε) (f : A → Except ε B) :
    ((Except.error e : Except ε A) >>= f) = .error e := rfl

theorem except_bind_ok {ε A B : Type} (a : A) (f : A → Except ε B) :
    ((Except.ok a : Except ε A) >>= f) = f a := rfl

/-- A successful `semanticSearch` echoes its content type and carries no
`error` field. -/
theorem semanticSearch_ok_shape {init : Bool} {prov : Provider} {store : Store α}
    {q : List Char} {ct : String} {opts : SearchOptions} {r : SearchEntry α}
    (h : semanticSearch init prov store q ct opts = .ok r) :
    r.contentType = ct ∧ r.error = none := by
  unfold semanticSearch at h
  split at h
  · cases h
  · cases hg : (generateEmbedding init prov (some q)).mapError EmbError.message with
    | error e =>
      rw [hg, except_bind_error] at h
      cases h
    | ok qr =>
      rw [hg, except_bind_ok] at h
      cases hs : searchSimilar store (some qr.embedding) ct opts with
      | error e =>
        rw [hs, except_bind_error] at h
        cases h
      | ok results =>
        rw [hs, except_bind_ok] at h
        cases h
        exact ⟨rfl, rfl⟩

theorem flatMap_map_eq (f : α → β) (g : β → List γ) (l : List α) :
    (l.map f).flatMap g = l.flatMap (fun a => g (f a)) := by
  induction l with
  | nil => simp
  | cons a t ih => simp [ih]

theorem flatMap_congr_mem {l : List α} {f g : α → List γ}
    (h : ∀ a ∈ l, f a = g a) : l.flatMap f = l.flatMap g := by
  induction l with
  | nil => simp
  | cons a t ih =>
    simp only [List.flatMap_cons]
    rw [h a (by simp), ih (fun b hb => h b (by simp [hb]))]

/-- C1: multi-collection search isolates per-collection failures.  For
every provider/store behaviour: (a) once the input guard passes, the call
never throws, whatever any collection's sub-search does — in both
aggregation modes; (b) in the mode that reports `successfulSearches`
(separate mode), the response contains, per collection and in order, the
successful collections' full responses and a recorded fallback entry
carrying the failing collection's error message, and `successfulSearches`
counts exactly the collections whose sub-search succeeded. -/
theorem claim_C1 (init : Bool) (prov : Provider) (store : Store α)
    (query : List Char) (cts : List String) (limit : ℕ) (threshold : ℚ)
    (hq : query ≠ []) (hcts : cts ≠ [])
    (hmsg : ∀ ct e, semanticSearch init prov store query ct
      ⟨limit, threshold, [], none, false⟩ = .error e → e ≠ "") :
    (∀ agg, (multiContentTypeSearch init prov store query cts
      ⟨limit, threshold, agg⟩).isOk = true) ∧
    multiContentTypeSearch init prov store query cts ⟨limit, threshold, false⟩ =
      .ok (.separate query cts
        (cts.map (multiEntry init prov store query limit threshold))
        cts.length
        ((cts.filter (fun ct => (semanticSearch init prov store query ct
          ⟨limit, threshold, [], none, false⟩).isOk)).length)) := by
  have hguard : ¬ (query = [] ∨ cts = []) := by
    rintro (h | h)
    · exact hq h
    · exact hcts h
  constructor
  · intro agg
    unfold multiContentTypeSearch
    rw [if_neg hguard]
    cases agg <;> rfl
  · have hdef : multiContentTypeSearch init prov store query cts ⟨limit, threshold, false⟩ =
        .ok (.separate query cts (cts.map (multiEntry init prov store query limit threshold))
          cts.length
          (((cts.map (multiEntry init prov store query limit threshold)).filter
            (fun sr => !errTruthy sr.error)).length)) := by
      unfold multiContentTypeSearch
      rw [if_neg hguard]
      rfl
    rw [hdef]
    have hcount :
        ((cts.map (multiEntry init prov store query limit threshold)).filter
          (fun sr => !errTruthy sr.error)).length =
        (cts.filter (fun ct => (semanticSearch init prov store query ct
          ⟨limit, threshold, [], none, false⟩).isOk)).length := by
      rw [List.filter_map, List.length_map]
      congr 1
      apply List.filter_congr
      intro ct _
      simp only [Function.comp]
      cases hs : semanticSearch init prov store query ct
          ⟨limit, threshold, [], none, false⟩ with
      | ok r =>
        have hnone := (semanticSearch_ok_shape hs).2
        have hentry : multiEntry init prov store query limit threshold ct = r := by
          unfold multiEntry
          rw [hs]
        rw [hentry, hnone]
        rfl
      | error e =>
        have hne := hmsg ct e hs
        have hentry : multiEntry init prov store query limit threshold ct =
            ⟨query, ct, [], some e, 0, 0⟩ := by
          unfold multiEntry
          rw [hs]
        rw [hentry]
        simp [errTruthy, hne, Except.isOk, Except.toBool]
    rw [hcount]

theorem genC1 : (generateEmbedding true provOk (some mlQuery)).mapError EmbError.message =
    .ok ⟨[1], mlQuery, 16, 16⟩ := by
  have h1 : generateEmbedding true provOk (some mlQuery) = .ok ⟨[1], mlQuery, 16, 16⟩ := by
    simp [generateEmbedding, provOk, mlQuery, preprocessText, normalizeText, stripTags,
      collapseWs, trimWs, trimLeftWs, trimRightWs, isWs]
  rw [h1]
  rfl

theorem cosC1 : calculateCosineSimilarity (some [1]) (some ([1] : List ℚ)) =
    .ok (.ratio 1 1 one_pos) := by
  have hd : dotProduct [1] ([1] : List ℚ) = 1 := by
    simp [dotProduct]
  simp only [calculateCosineSimilarity, List.length_singleton, if_true, hd]
  rw [dif_neg (by norm_num)]
  norm_num

theorem searchC1ok (ct : String) (hct : ct ≠ "") (hb : ct ≠ "blogs") :
    searchSimilar storeC1 (some [1]) ct ⟨10, 1 / 10, [], none, false⟩ =
      .ok [⟨⟨0, some [1]⟩, .ratio 1 1 one_pos⟩] := by
  have hstore : storeC1 ct ⟨true, [], none, 1000⟩ = .ok [⟨0, some [1]⟩] := by
    simp [storeC1, hb]
  rw [searchSimilar_eq storeC1 (some [1]) ct _ [⟨0, some [1]⟩] (by simp [hct]) hstore]
  have hscore : scoreDoc (some [1]) (⟨0, some [1]⟩ : Doc ℕ) =
      some ⟨⟨0, some [1]⟩, .ratio 1 1 one_pos⟩ := by
    simp [scoreDoc, cosC1]
  have hthr : aboveThreshold (1 / 10) (⟨⟨0, some [1]⟩, .ratio 1 1 one_pos⟩ : Scored ℕ) = true := by
    simp [aboveThreshold, SimScore.le, SimScore.rep]
    norm_num
  have hfm : List.filterMap (scoreDoc (some [1])) [(⟨0, some [1]⟩ : Doc ℕ)] =
      [⟨⟨0, some [1]⟩, .ratio 1 1 one_pos⟩] := by
    simp [List.filterMap_cons, hscore]
  have hfil : List.filter (aboveThreshold (1 / 10))
      [(⟨⟨0, some [1]⟩, .ratio 1 1 one_pos⟩ : Scored ℕ)] =
      [⟨⟨0, some [1]⟩, .ratio 1 1 one_pos⟩] := by
    rw [List.filter_cons, List.filter_nil, if_pos hthr]
  rw [hfm, hfil, List.mergeSort_singleton]
  rfl

theorem blogsSearchC1 : searchSimilar storeC1 (some [1]) "blogs" ⟨10, 1 / 10, [], none, false⟩ =
    .error "Store query failed" := by
  unfold searchSimilar
  rw [if_neg (by simp)]
  have hstore : storeC1 "blogs" ⟨true, [], none, 1000⟩ = .error "Store query failed" := by
    simp [storeC1]
  rw [hstore, except_bind_error]

theorem artC1 : semanticSearch true provOk storeC1 mlQuery "articles"
    ⟨10, 1 / 10, [], none, false⟩ =
    .ok ⟨mlQuery, "articles", [⟨⟨0, none⟩, .ratio 1 1 one_pos⟩], none, 1, 1⟩ := by
  unfold semanticSearch
  rw [if_neg (by simp [mlQuery])]
  rw [genC1, except_bind_ok]
  rw [searchC1ok "articles" (by decide) (by decide), except_bind_ok]
  rfl

theorem blogsC1 : semanticSearch true provOk storeC1 mlQuery "blogs"
    ⟨10, 1 / 10, [], none, false⟩ = .error "Store query failed" := by
  unfold semanticSearch
  rw [if_neg (by simp [mlQuery])]
  rw [genC1, except_bind_ok]
  rw [blogsSearchC1, except_bind_error]

theorem msgC1 : ∀ ct e, semanticSearch true provOk storeC1 mlQuery ct
    ⟨10, 1 / 10, [], none, false⟩ = .error e → e ≠ "" := by
  intro ct e h
  by_cases hg2 : mlQuery = [] ∨ ct = ""
  · unfold semanticSearch at h
    rw [if_pos hg2] at h
    cases h
    decide
  · unfold semanticSearch at h
    rw [if_neg hg2, genC1, except_bind_ok] at h
    by_cases hb : ct = "blogs"
    · subst hb
      rw [blogsSearchC1, except_bind_error] at h
      cases h
      decide
    · have hct : ct ≠ "" := fun hc => hg2 (Or.inr hc)
      rw [searchC1ok ct hct hb, except_bind_ok] at h
      cases h

/-- C1 witness: the spec's scenario over `["articles", "blogs"]` with the
`blogs` store query throwing — the call succeeds, the `articles` results
are present, a fallback entry records the `blogs` error, and
`successfulSearches = 1`. -/
theorem claim_C1_witness :
    (mlQuery ≠ [] ∧ (["articles", "blogs"] : List String) ≠ [] ∧
      (∀ ct e, semanticSearch true provOk storeC1 mlQuery ct
        ⟨10, 1 / 10, [], none, false⟩ = .error e → e ≠ "")) ∧
    multiContentTypeSearch true provOk storeC1 mlQuery ["articles", "blogs"]
        ⟨10, 1 / 10, false⟩ =
      .ok (.separate mlQuery ["articles", "blogs"]
        (["articles", "blogs"].map (multiEntry true provOk storeC1 mlQuery 10 (1 / 10)))
        2 1) := by
  have hq : mlQuery ≠ [] := by decide
  have hcts : (["articles", "blogs"] : List String) ≠ [] := by simp
  have main := claim_C1 true provOk storeC1 mlQuery ["articles", "blogs"] 10 (1 / 10)
    hq hcts msgC1
  have hcount : ((["articles", "blogs"] : List String).filter (fun ct =>
      (semanticSearch true provOk storeC1 mlQuery ct
        ⟨10, 1 / 10, [], none, false⟩).isOk)).length = 1 := by
    simp only [List.filter_cons, List.filter_nil, artC1, blogsC1]
    rfl
  refine ⟨⟨hq, hcts, msgC1⟩, ?_⟩
  rw [main.2, hcount]
  rfl

/-- C7: in aggregated mode, every per-collection sub-search is issued
with limit `ceil(limit * 1.5)`; the successful collections' results are
combined into one list tagged with their origin collection, the combined
list is re-sorted descending by similarity score (the response equals the
stable descending sort of the tagged pool truncated to `limit`), and the
final result has at most `limit` entries. -/
theorem claim_C7 (init : Bool) (prov : Provider) (store : Store α)
    (query : List Char) (cts : List String) (limit : ℕ) (threshold : ℚ)
    (hq : query ≠ []) (hcts : cts ≠ []) :
    ∃ ind,
      multiContentTypeSearch init prov store query cts ⟨limit, threshold, true⟩ =
        .ok (.aggregated query cts
          (((aggCandidates init prov store query (Nat.ceil ((limit : ℚ) * (3 / 2)))
              threshold cts).mergeSort
            (descLE (fun tr : TaggedResult α => tr.result.similarityScore))).take limit)
          ((((aggCandidates init prov store query (Nat.ceil ((limit : ℚ) * (3 / 2)))
              threshold cts).mergeSort
            (descLE (fun tr : TaggedResult α => tr.result.similarityScore))).take limit).length) ind) ∧
      (((aggCandidates init prov store query (Nat.ceil ((limit : ℚ) * (3 / 2)))
          threshold cts).mergeSort
        (descLE (fun tr : TaggedResult α => tr.result.similarityScore))).take limit).Pairwise
        (fun x y => y.result.similarityScore.val ≤ x.result.similarityScore.val) ∧
      (((aggCandidates init prov store query (Nat.ceil ((limit : ℚ) * (3 / 2)))
          threshold cts).mergeSort
        (descLE (fun tr : TaggedResult α => tr.result.similarityScore))).take limit).length ≤ limit := by
  have hguard : ¬ (query = [] ∨ cts = []) := by
    rintro (h | h)
    · exact hq h
    · exact hcts h
  have hall : ((cts.map (multiEntry init prov store query
        (Nat.ceil ((limit : ℚ) * (3 / 2))) threshold)).flatMap
        (fun sr => sr.results.map (fun r => TaggedResult.mk r sr.contentType))) =
      aggCandidates init prov store query (Nat.ceil ((limit : ℚ) * (3 / 2)))
        threshold cts := by
    rw [flatMap_map_eq]
    unfold aggCandidates
    apply flatMap_congr_mem
    intro ct _
    cases hs : semanticSearch init prov store query ct
        ⟨Nat.ceil ((limit : ℚ) * (3 / 2)), threshold, [], none, false⟩ with
    | ok r =>
      have hct := (semanticSearch_ok_shape hs).1
      have hentry : multiEntry init prov store query
          (Nat.ceil ((limit : ℚ) * (3 / 2))) threshold ct = r := by
        unfold multiEntry
        rw [hs]
      rw [hentry, hct]
    | error e =>
      have hentry : multiEntry init prov store query
          (Nat.ceil ((limit : ℚ) * (3 / 2))) threshold ct =
          ⟨query, ct, [], some e, 0, 0⟩ := by
        unfold multiEntry
        rw [hs]
      rw [hentry]
      rfl
  have hdef : multiContentTypeSearch init prov store query cts ⟨limit, threshold, true⟩ =
      .ok (.aggregated query cts
        (((cts.map (multiEntry init prov store query
            (Nat.ceil ((limit : ℚ) * (3 / 2))) threshold)).flatMap
            (fun sr => sr.results.map (fun r => TaggedResult.mk r sr.contentType))
          |>.mergeSort (descLE (fun tr : TaggedResult α => tr.result.similarityScore))).take limit)
        ((((cts.map (multiEntry init prov store query
            (Nat.ceil ((limit : ℚ) * (3 / 2))) threshold)).flatMap
            (fun sr => sr.results.map (fun r => TaggedResult.mk r sr.contentType))
          |>.mergeSort (descLE (fun tr : TaggedResult α => tr.result.similarityScore))).take limit).length)
        ((cts.map (multiEntry init prov store query
            (Nat.ceil ((limit : ℚ) * (3 / 2))) threshold)).map
          (fun sr => ⟨sr.contentType, sr.results.length, errTruthy sr.error⟩))) := by
    unfold multiContentTypeSearch
    rw [if_neg hguard]
    rfl
  rw [hall] at hdef
  refine ⟨_, hdef, ?_, ?_⟩
  · exact (mergeSort_desc_sorted (fun tr : TaggedResult α => tr.result.similarityScore) _).sublist
      (List.take_sublist _ _)
  · rw [List.length_take]
    exact min_le_left _ _

/-- C7 witness: the aggregated mode over two concrete collections. -/
theorem claim_C7_witness :
    (mlQuery ≠ [] ∧ (["articles", "blogs"] : List String) ≠ []) ∧
    ∃ ind,
      multiContentTypeSearch true provOk storeC1 mlQuery ["articles", "blogs"]
          ⟨10, 1 / 10, true⟩ =
        .ok (.aggregated mlQuery ["articles", "blogs"]
          (((aggCandidates true provOk storeC1 mlQuery (Nat.ceil ((10 : ℚ) * (3 / 2)))
              (1 / 10) ["articles", "blogs"]).mergeSort
            (descLE (fun tr : TaggedResult ℕ => tr.result.similarityScore))).take 10)
          ((((aggCandidates true provOk storeC1 mlQuery (Nat.ceil ((10 : ℚ) * (3 / 2)))
              (1 / 10) ["articles", "blogs"]).mergeSort
            (descLE (fun tr : TaggedResult ℕ => tr.result.similarityScore))).take 10).length)
          ind) ∧
      (((aggCandidates true provOk storeC1 mlQuery (Nat.ceil ((10 : ℚ) * (3 / 2)))
          (1 / 10) ["articles", "blogs"]).mergeSort
        (descLE (fun tr : TaggedResult ℕ => tr.result.similarityScore))).take 10).Pairwise
        (fun x y => y.result.similarityScore.val ≤ x.result.similarityScore.val) ∧
      (((aggCandidates true provOk storeC1 mlQuery (Nat.ceil ((10 : ℚ) * (3 / 2)))
          (1 / 10) ["articles", "blogs"]).mergeSort
        (descLE (fun tr : TaggedResult ℕ => tr.result.similarityScore))).take 10).length ≤ 10 := by
  have hq : mlQuery ≠ [] := by decide
  have hcts : (["articles", "blogs"] : List String) ≠ [] := by simp
  have main := claim_C7 true provOk storeC1 mlQuery ["articles", "blogs"] 10 (1 / 10) hq hcts
  exact ⟨⟨hq, hcts⟩, main⟩

/-! ## Normalization idempotence lemmas (for C10) -/

theorem stripTags_nil : stripTags [] = [] := by
  simp [stripTags]

theorem stripTags_lt_some {rest : List Char} {i : ℕ}
    (h : rest.findIdx? (fun x => x == '>') = some i) :
    stripTags ('<' :: rest) = ' ' :: stripTags (rest.drop (i + 1)) := by
  simp [stripTags, h]

theorem stripTags_lt_none {rest : List Char}
    (h : rest.findIdx? (fun x => x == '>') = none) :
    stripTags ('<' :: rest) = '<' :: rest := by
  simp [stripTags, h]

theorem stripTags_cons_ne {c : Char} {rest : List Char} (h : ¬ c = '<') :
    stripTags (c :: rest) = c :: stripTags rest := by
  simp [stripTags, h]

theorem collapseWs_nil : collapseWs [] = [] := by
  simp [collapseWs]

theorem collapseWs_ws {c : Char} {rest : List Char} (h : isWs c = true) :
    collapseWs (c :: rest) = ' ' :: collapseWs (rest.dropWhile isWs) := by
  simp [collapseWs, h]

theorem collapseWs_nws {c : Char} {rest : List Char} (h : ¬ isWs c = true) :
    collapseWs (c :: rest) = c :: collapseWs rest := by
  simp [collapseWs, h]

theorem clean_of_not_mem {l : List Char} (h : '>' ∉ l) : Clean l := by
  induction l with
  | nil => trivial
  | cons c rest ih =>
    exact ⟨fun _ => fun hm => h (by simp [hm]), ih (fun hm => h (by simp [hm]))⟩

theorem Clean.tail {c : Char} {l : List Char} (h : Clean (c :: l)) : Clean l := h.2

theorem clean_dropWhile (p : Char → Bool) {l : List Char} (h : Clean l) :
    Clean (l.dropWhile p) := by
  induction l with
  | nil => trivial
  | cons c rest ih =>
    rw [List.dropWhile_cons]
    split
    · exact ih h.2
    · exact h

theorem clean_append_left {p s : List Char} (h : Clean (p ++ s)) : Clean p := by
  induction p with
  | nil => trivial
  | cons c rest ih =>
    rw [List.cons_append] at h
    exact ⟨fun hc => fun hm => h.1 hc (by simp [hm]), ih h.2⟩

theorem clean_stripTags (l : List Char) : Clean (stripTags l) := by
  induction l using stripTags.induct with
  | case1 =>
    rw [stripTags_nil]
    trivial
  | case2 rest i hfind ih =>
    rw [stripTags_lt_some hfind]
    exact ⟨fun h => absurd h (by decide), ih⟩
  | case3 rest hfind =>
    rw [stripTags_lt_none hfind]
    have hmem : '>' ∉ rest := by
      intro hm
      have := List.findIdx?_eq_none_iff.mp hfind '>' hm
      simp at this
    exact ⟨fun _ => hmem, clean_of_not_mem hmem⟩
  | case4 c rest hc ih =>
    rw [stripTags_cons_ne hc]
    exact ⟨fun h => absurd h hc, ih⟩

theorem stripTags_of_clean {l : List Char} (h : Clean l) : stripTags l = l := by
  induction l with
  | nil => exact stripTags_nil
  | cons c rest ih =>
    by_cases hc : c = '<'
    · subst hc
      have hnone : rest.findIdx? (fun x => x == '>') = none := by
        rw [List.findIdx?_eq_none_iff]
        intro x hx
        simp only [beq_eq_false_iff_ne, ne_eq]
        intro hxe
        exact h.1 rfl (hxe ▸ hx)
      exact stripTags_lt_none hnone
    · rw [stripTags_cons_ne hc, ih h.2]

theorem mem_collapseWs {a : Char} {l : List Char} (h : a ∈ collapseWs l) :
    a = ' ' ∨ a ∈ l := by
  induction l using collapseWs.induct with
  | case1 =>
    rw [collapseWs_nil] at h
    simp at h
  | case2 c rest hw ih =>
    rw [collapseWs_ws hw] at h
    rcases List.mem_cons.mp h with h1 | h1
    · exact Or.inl h1
    · rcases ih h1 with h2 | h2
      · exact Or.inl h2
      · exact Or.inr (List.mem_cons_of_mem c ((List.dropWhile_sublist isWs).subset h2))
  | case3 c rest hw ih =>
    rw [collapseWs_nws hw] at h
    rcases List.mem_cons.mp h with h1 | h1
    · exact Or.inr (by simp [h1])
    · rcases ih h1 with h2 | h2
      · exact Or.inl h2
      · exact Or.inr (by simp [h2])

theorem clean_collapseWs {l : List Char} (h : Clean l) : Clean (collapseWs l) := by
  induction l using collapseWs.induct with
  | case1 =>
    rw [collapseWs_nil]
    trivial
  | case2 c rest hw ih =>
    rw [collapseWs_ws hw]
    exact ⟨fun hsp => absurd hsp (by decide), ih (clean_dropWhile isWs h.2)⟩
  | case3 c rest hw ih =>
    rw [collapseWs_nws hw]
    refine ⟨fun hc => fun hm => ?_, ih h.2⟩
    rcases mem_collapseWs hm with h2 | h2
    · exact absurd h2 (by decide)
    · exact h.1 hc h2

theorem trimRightWs_append (l : List Char) :
    l = trimRightWs l ++ (l.reverse.takeWhile isWs).reverse := by
  unfold trimRightWs
  calc l = l.reverse.reverse := (List.reverse_reverse l).symm
  _ = (List.takeWhile isWs l.reverse ++ List.dropWhile isWs l.reverse).reverse := by
      rw [List.takeWhile_append_dropWhile]
  _ = (List.dropWhile isWs l.reverse).reverse ++ (List.takeWhile isWs l.reverse).reverse := by
      rw [List.reverse_append]

theorem clean_trimWs {l : List Char} (h : Clean l) : Clean (trimWs l) := by
  unfold trimWs trimLeftWs
  have h1 : Clean (l.dropWhile isWs) := clean_dropWhile isWs h
  have h2 := trimRightWs_append (l.dropWhile isWs)
  rw [h2] at h1
  exact clean_append_left h1

theorem mem_collapseWs_ws {a : Char} {l : List Char} (h : a ∈ collapseWs l)
    (hw : isWs a = true) : a = ' ' := by
  induction l using collapseWs.induct with
  | case1 =>
    rw [collapseWs_nil] at h
    simp at h
  | case2 c rest hwc ih =>
    rw [collapseWs_ws hwc] at h
    rcases List.mem_cons.mp h with h1 | h1
    · exact h1
    · exact ih h1
  | case3 c rest hnc ih =>
    rw [collapseWs_nws hnc] at h
    rcases List.mem_cons.mp h with h1 | h1
    · exact absurd (h1 ▸ hw) hnc
    · exact ih h1

theorem wsIsSpace_collapseWs (l : List Char) : WsIsSpace (collapseWs l) :=
  fun _ hc hw => mem_collapseWs_ws hc hw

theorem dropWhile_head_not (p : Char → Bool) (l : List Char) :
    ∀ b, (l.dropWhile p).head? = some b → p b = false := by
  induction l with
  | nil => intro b hb; cases hb
  | cons c rest ih =>
    intro b hb
    rw [List.dropWhile_cons] at hb
    split at hb
    · exact ih b hb
    · cases hb
      rename_i hnc
      simpa using hnc

theorem head_collapseWs_not_ws (l : List Char)
    (hl : ∀ b0, l.head? = some b0 → isWs b0 = false) :
    ∀ b, (collapseWs l).head? = some b → isWs b = false := by
  intro b hb
  cases l with
  | nil =>
    rw [collapseWs_nil] at hb
    cases hb
  | cons c rest =>
    have hnc : ¬ isWs c = true := by
      have := hl c rfl
      simp [this]
    rw [collapseWs_nws hnc] at hb
    cases hb
    simpa using hnc

theorem noWsRun_collapseWs (l : List Char) : NoWsRun (collapseWs l) := by
  induction l using collapseWs.induct with
  | case1 =>
    rw [collapseWs_nil]
    exact List.chain'_nil
  | case2 c rest hwc ih =>
    rw [collapseWs_ws hwc]
    unfold NoWsRun
    rw [List.chain'_cons']
    refine ⟨?_, ih⟩
    intro y hy
    have hny : isWs y = false :=
      head_collapseWs_not_ws (rest.dropWhile isWs) (dropWhile_head_not isWs rest) y
        (by simpa using hy)
    intro hcon
    rw [hny] at hcon
    exact absurd hcon.2 (by simp)
  | case3 c rest hnc ih =>
    rw [collapseWs_nws hnc]
    unfold NoWsRun
    rw [List.chain'_cons']
    refine ⟨?_, ih⟩
    intro y _
    intro hcon
    exact hnc hcon.1

theorem collapseWs_of_invariants {l : List Char} (h1 : WsIsSpace l) (h2 : NoWsRun l) :
    collapseWs l = l := by
  induction l with
  | nil => exact collapseWs_nil
  | cons c rest ih =>
    have h1' : WsIsSpace rest := fun d hd hwd => h1 d (List.mem_cons_of_mem c hd) hwd
    have h2' : NoWsRun rest := h2.tail
    by_cases hw : isWs c = true
    · have hc : c = ' ' := h1 c (by simp) hw
      rw [collapseWs_ws hw]
      have hd : rest.dropWhile isWs = rest := by
        cases rest with
        | nil => rfl
        | cons d tl =>
          have hnd : ¬ isWs d = true := by
            have hr := (List.chain'_cons.mp h2).1
            intro hdw
            exact hr ⟨hw, hdw⟩
          rw [List.dropWhile_cons, if_neg hnd]
      rw [hd, hc, ih h1' h2']
    · rw [collapseWs_nws hw, ih h1' h2']

theorem dropWhile_idem (p : Char → Bool) (l : List Char) :
    List.dropWhile p (List.dropWhile p l) = List.dropWhile p l := by
  cases hd : List.dropWhile p l with
  | nil => rfl
  | cons c rest =>
    have hc := dropWhile_head_not p l c (by rw [hd]; rfl)
    rw [List.dropWhile_cons, if_neg (by simp [hc])]

theorem trimRightWs_idem (l : List Char) : trimRightWs (trimRightWs l) = trimRightWs l := by
  unfold trimRightWs
  rw [List.reverse_reverse, dropWhile_idem]

theorem trimLeftWs_trimRightWs_trimLeftWs (l : List Char) :
    trimLeftWs (trimRightWs (trimLeftWs l)) = trimRightWs (trimLeftWs l) := by
  cases hz : trimRightWs (trimLeftWs l) with
  | nil => rfl
  | cons c rest =>
    have happ := trimRightWs_append (trimLeftWs l)
    rw [hz] at happ
    have hhead : (trimLeftWs l).head? = some c := by
      rw [happ]
      rfl
    have hc : isWs c = false := dropWhile_head_not isWs l c hhead
    unfold trimLeftWs
    rw [List.dropWhile_cons, if_neg (by simp [hc])]

theorem trimWs_idem (l : List Char) : trimWs (trimWs l) = trimWs l := by
  unfold trimWs
  rw [trimLeftWs_trimRightWs_trimLeftWs l, trimRightWs_idem]

theorem wsIsSpace_trimWs {l : List Char} (h : WsIsSpace l) : WsIsSpace (trimWs l) := by
  intro c hc hw
  apply h c ?_ hw
  unfold trimWs at hc
  have h1 : c ∈ trimLeftWs l := by
    rw [trimRightWs_append (trimLeftWs l)]
    exact List.mem_append_left _ hc
  exact (List.dropWhile_sublist isWs).subset h1

theorem noWsRun_dropWhile (p : Char → Bool) {l : List Char} (h : NoWsRun l) :
    NoWsRun (l.dropWhile p) := by
  induction l with
  | nil => exact h
  | cons c rest ih =>
    rw [List.dropWhile_cons]
    split
    · exact ih h.tail
    · exact h

theorem noWsRun_trimWs {l : List Char} (h : NoWsRun l) : NoWsRun (trimWs l) := by
  have h1 : NoWsRun (trimLeftWs l) := noWsRun_dropWhile isWs h
  rw [trimRightWs_append (trimLeftWs l)] at h1
  exact h1.left_of_append

theorem stripTags_normalizeText (t : List Char) :
    stripTags (normalizeText t) = normalizeText t := by
  apply stripTags_of_clean
  exact clean_trimWs (clean_collapseWs (clean_stripTags t))

theorem collapseWs_normalizeText (t : List Char) :
    collapseWs (normalizeText t) = normalizeText t := by
  apply collapseWs_of_invariants
  · exact wsIsSpace_trimWs (wsIsSpace_collapseWs (stripTags t))
  · exact noWsRun_trimWs (noWsRun_collapseWs (stripTags t))

theorem trimWs_normalizeText (t : List Char) :
    trimWs (normalizeText t) = normalizeText t := by
  unfold normalizeText
  exact trimWs_idem _

theorem normalizeText_idem (t : List Char) :
    normalizeText (normalizeText t) = normalizeText t := by
  conv_lhs => rw [normalizeText]
  rw [stripTags_normalizeText, collapseWs_normalizeText, trimWs_normalizeText]

/-- C10: `preprocessText` is idempotent on every input whose normalized
form (markup replaced by spaces, whitespace collapsed, trimmed) is at most
8000 characters — for such inputs no truncation happens, and the
normalization pipeline is a no-op on its own output. -/
theorem claim_C10 (t : List Char) (h : (normalizeText t).length ≤ 8000) :
    preprocessText (some (preprocessText (some t))) = preprocessText (some t) := by
  by_cases ht : t = []
  · subst ht
    rfl
  · have hpre : preprocessText (some t) = normalizeText t := by
      unfold preprocessText
      dsimp only
      rw [if_neg ht]
      rw [if_neg (by omega)]
    rw [hpre]
    by_cases hn : normalizeText t = []
    · rw [hn]
      rfl
    · show (if normalizeText t = [] then [] else
        let normalizedText := normalizeText (normalizeText t)
        if normalizedText.length > 8000 then normalizedText.take 8000 ++ ['.', '.', '.']
        else normalizedText) = normalizeText t
      rw [if_neg hn]
      rw [normalizeText_idem]
      rw [if_neg (by omega)]

/-- C10 witness: the spec's markup scenario `"<p>Hello   world</p>"`. -/
theorem claim_C10_witness :
    (normalizeText "<p>Hello   world</p>".toList).length ≤ 8000 ∧
    preprocessText (some (preprocessText (some "<p>Hello   world</p>".toList))) =
      preprocessText (some "<p>Hello   world</p>".toList) := by
  have hnorm : normalizeText "<p>Hello   world</p>".toList = "Hello world".toList := by
    simp [normalizeText, trimWs, trimLeftWs, trimRightWs, collapseWs, stripTags, isWs]
  have h : (normalizeText "<p>Hello   world</p>".toList).length ≤ 8000 := by
    rw [hnorm]
    decide
  exact ⟨h, claim_C10 "<p>Hello   world</p>".toList h⟩
